import Mathlib

/-!
Verification of the encoding subsystem of the qsdk repository
(hex utilities, the ABI parameter codec, the JSON codec and the RLP codec).

JavaScript strings are modelled as `List Char` (all the strings handled by
the codecs are ASCII, where JS `.length` and character indexing coincide
with the character list), byte buffers as `List Nat` with entries below
256, and JS exceptions as the `Except` monad over an error enumeration
that mirrors the distinct `throw` messages of the source.
-/

instance {ε α : Type} [DecidableEq ε] [DecidableEq α] :
    DecidableEq (Except ε α) := fun
  | .ok a, .ok b =>
    if h : a = b then .isTrue (by rw [h])
    else .isFalse (by intro he; cases he; exact h rfl)
  | .error e, .error f =>
    if h : e = f then .isTrue (by rw [h])
    else .isFalse (by intro he; cases he; exact h rfl)
  | .ok _, .error _ => .isFalse (by intro h; cases h)
  | .error _, .ok _ => .isFalse (by intro h; cases h)

/-- Error kinds raised by the codecs; one constructor per distinct
`throw` site family in the source. -/
inductive CodecErr where
  | lengthErr
  | formatErr
  | rangeErr
  | typeErr
  | unsupportedType
  | conversionErr
  | invalidAddress
  | unsupportedFormat
  deriving Repr, DecidableEq

/-- The value of a hexadecimal digit character, `none` when the character
is not a hex digit (JS `parseInt(c, 16)` yields `NaN` there). -/
def hexVal (c : Char) : Option Nat :=
  if '0' ≤ c ∧ c ≤ '9' then some (c.toNat - '0'.toNat)
  else if 'a' ≤ c ∧ c ≤ 'f' then some (c.toNat - 'a'.toNat + 10)
  else if 'A' ≤ c ∧ c ≤ 'F' then some (c.toNat - 'A'.toNat + 10)
  else none

/-- Whether a character is a hexadecimal digit (`[0-9a-fA-F]`). -/
def isHexDigit (c : Char) : Bool :=
  (hexVal c).isSome

/-- `src/utils/hex.js` `HexUtils.isHex`: the regex `^0x[0-9a-fA-F]+$`. -/
def isHex (s : List Char) : Bool :=
  match s with
  | '0' :: 'x' :: rest => !rest.isEmpty && rest.all isHexDigit
  | _ => false

/-- The lowercase hexadecimal digit character for a value below 16
(JS `Number.prototype.toString(16)` digit alphabet). -/
def hexDigitChar (d : Nat) : Char :=
  "0123456789abcdef".data.getD d '*'

/-- Core of `value.toString(16)` for non-negative integers: fuel-indexed so
that the recursion is structural; the fuel `n + 1` always suffices. -/
def natToHexCore : Nat → Nat → List Char
  | 0, _ => []
  | f + 1, n =>
    if n < 16 then [hexDigitChar n]
    else natToHexCore f (n / 16) ++ [hexDigitChar (n % 16)]

/-- JS `n.toString(16)` for a non-negative integer `n`: minimal lowercase
hex digits, `"0"` for zero. -/
def natToHexL (n : Nat) : List Char :=
  natToHexCore (n + 1) n

/-- Numeric value of a hex-digit string, most significant digit first
(the reading performed by JS `BigInt('0x' + s)` on valid digits). -/
def hexListToNat (s : List Char) : Nat :=
  s.foldl (fun a c => 16 * a + (hexVal c).getD 0) 0

/-- JS `String.prototype.padStart(len, c)`: left-pad to `len` characters,
a no-op when the string is already at least that long. -/
def padStart (s : List Char) (len : Nat) (c : Char) : List Char :=
  List.replicate (len - s.length) c ++ s

/-- `Buffer.prototype.toString('hex')`: each byte becomes exactly two
lowercase hex digits. -/
def bytesToHex (bs : List Nat) : List Char :=
  bs.flatMap (fun b => [hexDigitChar (b / 16), hexDigitChar (b % 16)])

/-- `Buffer.from(s, 'hex')`: consecutive digit pairs become bytes; parsing
stops at the first invalid pair, and a trailing lone digit is dropped. -/
def hexPairsToBytes : List Char → List Nat
  | c1 :: c2 :: rest =>
    match hexVal c1, hexVal c2 with
    | some h, some l => (16 * h + l) :: hexPairsToBytes rest
    | _, _ => []
  | _ => []

/-- UTF-8 encoding of one Unicode scalar value (what `Buffer.from(str,
'utf8')` produces per character for well-formed strings). -/
def utf8Char (c : Char) : List Nat :=
  if c.toNat < 0x80 then [c.toNat]
  else if c.toNat < 0x800 then [0xC0 + c.toNat / 64, 0x80 + c.toNat % 64]
  else if c.toNat < 0x10000 then
    [0xE0 + c.toNat / 4096, 0x80 + (c.toNat / 64) % 64, 0x80 + c.toNat % 64]
  else
    [0xF0 + c.toNat / 262144, 0x80 + (c.toNat / 4096) % 64,
      0x80 + (c.toNat / 64) % 64, 0x80 + c.toNat % 64]

/-- UTF-8 byte sequence of a string (`Buffer.from(str, 'utf8')`). -/
def utf8ListBytes (s : List Char) : List Nat :=
  s.flatMap utf8Char


/-! ## ABI codec (`src/encoding/abi.js`) -/

/-- JS `BigInt(string)`: trimmed empty string is `0`; `0x`/`0o`/`0b`
radix forms (no sign); otherwise an optional sign followed by decimal
digits; anything else throws (`none`). -/
def jsBigIntOfString (s : List Char) : Option Int :=
  let isWs : Char → Bool := fun c => c = ' ' ∨ c = '\t' ∨ c = '\n' ∨ c = '\r'
  let t := (s.dropWhile isWs).reverse.dropWhile isWs |>.reverse
  let decVal : Char → Option Nat := fun c =>
    if '0' ≤ c ∧ c ≤ '9' then some (c.toNat - '0'.toNat) else none
  let radix : Nat → List Char → Option Int := fun base ds =>
    if ds.isEmpty then none
    else if ds.all (fun c => ((hexVal c).getD 16) < base) then
      some (ds.foldl (fun a c => base * a + (hexVal c).getD 0) 0 : Nat)
    else none
  match t with
  | [] => some 0
  | '0' :: 'x' :: rest => radix 16 rest
  | '0' :: 'X' :: rest => radix 16 rest
  | '0' :: 'o' :: rest => radix 8 rest
  | '0' :: 'O' :: rest => radix 8 rest
  | '0' :: 'b' :: rest => radix 2 rest
  | '0' :: 'B' :: rest => radix 2 rest
  | '-' :: rest =>
    if rest ≠ [] ∧ rest.all (fun c => (decVal c).isSome) then
      some (-(rest.foldl (fun a c => 10 * a + (decVal c).getD 0) 0 : Nat))
    else none
  | '+' :: rest =>
    if rest ≠ [] ∧ rest.all (fun c => (decVal c).isSome) then
      some (rest.foldl (fun a c => 10 * a + (decVal c).getD 0) 0 : Nat)
    else none
  | rest =>
    if rest.all (fun c => (decVal c).isSome) then
      some (rest.foldl (fun a c => 10 * a + (decVal c).getD 0) 0 : Nat)
    else none

/-- A JS value of primitive shape passed to `ABIUtils.encodeParameter`. -/
inductive AbiValue where
  | vint (n : Int)
  | vstr (s : List Char)
  | vbool (b : Bool)
  deriving Repr, DecidableEq

/-- JS `BigInt(value)`: integers (numbers / BigInts) are themselves,
booleans become 0/1, strings are parsed; failure throws. -/
def jsToBigInt : AbiValue → Option Int
  | .vint n => some n
  | .vbool b => some (if b then 1 else 0)
  | .vstr s => jsBigIntOfString s

/-- JS truthiness of a primitive value (used by `encodeBool`'s `value ?`
test). -/
def jsTruthy : AbiValue → Bool
  | .vint n => n ≠ 0
  | .vstr s => !s.isEmpty
  | .vbool b => b

/-- `ABIUtils.encodeUInt256`: `BigInt(value)` (already performed by the
caller via `jsToBigInt`), negative check, then
`toString(16).padStart(64, '0')`. -/
def encodeUInt256 (n : Int) : Except CodecErr (List Char) :=
  if n < 0 then .error .rangeErr
  else .ok (padStart (natToHexL n.toNat) 64 '0')

/-- `ABIUtils.encodeString`: `Buffer.from(value, 'utf8').toString('hex')`
then `padStart(64, '0')`; the argument is the UTF-8 byte sequence of the
string. -/
def encodeStringAbi (bs : List Nat) : List Char :=
  padStart (bytesToHex bs) 64 '0'

/-- The 64-character all-zero ABI word (`encodeBool(false)`). -/
def zerosWord : List Char :=
  "0000000000000000000000000000000000000000000000000000000000000000".data

/-- The 64-character ABI word with trailing 1 (`encodeBool(true)`). -/
def onesWord : List Char :=
  "0000000000000000000000000000000000000000000000000000000000000001".data

/-- `ABIUtils.encodeBool`. -/
def encodeBool (b : Bool) : List Char :=
  if b then onesWord else zerosWord

/-- `ABIUtils.encodeAddress`: requires `isHex(address)` and length 42,
then strips the `0x` and pads to 64. -/
def encodeAddress (s : List Char) : Except CodecErr (List Char) :=
  if isHex s = false ∨ s.length ≠ 42 then .error .invalidAddress
  else .ok (padStart (s.drop 2) 64 '0')

/-- `ABIUtils.encodeBytes32`: length check first (`LengthError`), then
`isHex` (`FormatError`), returned unchanged. -/
def encodeBytes32 (w : List Char) : Except CodecErr (List Char) :=
  if w.length ≠ 64 then .error .lengthErr
  else if isHex w = false then .error .formatErr
  else .ok w

/-- `ABIUtils.encodeBytes`: requires a hex string, then
`padStart(64, '0')` on the whole string, `0x` included. -/
def encodeBytes (s : List Char) : Except CodecErr (List Char) :=
  if isHex s = false then .error .formatErr
  else .ok (padStart s 64 '0')

/-- `ABIUtils.encodeParameter`: dispatch on the type tag. Shapes for
which the underlying JS primitives throw (e.g. `Buffer.from(number)`,
`value.length` of a non-string) are mapped to the error of the throw
that fires there. -/
def encodeParameter (t : List Char) (v : AbiValue) :
    Except CodecErr (List Char) :=
  if t = "uint256".data then
    match jsToBigInt v with
    | none => .error .conversionErr
    | some n => encodeUInt256 n
  else if t = "string".data then
    match v with
    | .vstr s => .ok (encodeStringAbi (utf8ListBytes s))
    | _ => .error .typeErr
  else if t = "bool".data then .ok (encodeBool (jsTruthy v))
  else if t = "address".data then
    match v with
    | .vstr s => encodeAddress s
    | _ => .error .invalidAddress
  else if t = "bytes32".data then
    match v with
    | .vstr s => encodeBytes32 s
    | _ => .error .lengthErr
  else if t = "bytes".data then
    match v with
    | .vstr s => encodeBytes s
    | _ => .error .formatErr
  else .error .unsupportedType

/-- A decoded ABI value as returned by `ABIUtils.decodeParameter`:
a BigInt, a string (given by its UTF-8 bytes), a boolean, or a hex
string. -/
inductive AbiDecoded where
  | dint (n : Int)
  | dstr (bs : List Nat)
  | dbool (b : Bool)
  | dhex (s : List Char)
  deriving Repr, DecidableEq

/-- `ABIUtils.decodeUInt256`: `BigInt('0x' + encodedValue)`; throws on an
empty or non-hex digit string. -/
def decodeUInt256 (w : List Char) : Except CodecErr AbiDecoded :=
  if !w.isEmpty && w.all isHexDigit then .ok (.dint (hexListToNat w))
  else .error .conversionErr

/-- `ABIUtils.decodeParameter`: dispatch on the type tag.  The `string`
case is `Buffer.from(w, 'hex').toString('utf8').replace(/\0/g, '')`,
modelled at the byte level (removing U+0000 characters removes the 0x00
bytes). -/
def decodeParameter (t : List Char) (w : List Char) :
    Except CodecErr AbiDecoded :=
  if t = "uint256".data then decodeUInt256 w
  else if t = "string".data then
    .ok (.dstr ((hexPairsToBytes w).filter (fun b => b != 0)))
  else if t = "bool".data then .ok (.dbool (w = onesWord))
  else if t = "address".data then .ok (.dhex ('0' :: 'x' :: w.drop 24))
  else if t = "bytes32".data then .ok (.dhex w)
  else if t = "bytes".data then .ok (.dhex w)
  else .error .unsupportedType


/-! ## JSON codec (`src/encoding/json.js`) -/

/-- A JSON value as handled by `JSONUtils`. -/
inductive JValue where
  | jnum (n : Int)
  | jstr (s : List Char)
  | jbool (b : Bool)
  | jarr (items : List JValue)
  | jobj (fields : List (List Char × JValue))
  | jnull
  deriving Repr

/-- `JSONUtils.getType`: the `typeof` chain of the source.  The string
branch precedes the `isHex` test, so the `isHex` test only ever runs on
the remaining shapes (`null` and plain objects), whose JS string
coercions (`"null"`, `"[object Object]"`) are written out literally. -/
def getType : JValue → Except CodecErr (List Char)
  | .jnum _ => .ok "uint256".data
  | .jstr _ => .ok "string".data
  | .jbool _ => .ok "bool".data
  | .jarr _ => .ok "bytes[]".data
  | .jnull =>
    if isHex "null".data then .ok "bytes32".data
    else .error .unsupportedType
  | .jobj _ =>
    if isHex "[object Object]".data then .ok "bytes32".data
    else .error .unsupportedType

/-- One element step of `encodeArray`/`encodeObject`:
`ABIUtils.encodeParameter(this.getType(item), item)`. -/
def encodeItem (v : JValue) : Except CodecErr (List Char) :=
  match getType v with
  | .error e => .error e
  | .ok t =>
    match v with
    | .jnum n => encodeParameter t (.vint n)
    | .jstr s => encodeParameter t (.vstr s)
    | .jbool b => encodeParameter t (.vbool b)
    | .jarr _ => .error .unsupportedType
    | _ => .error .unsupportedType

/-- `JSONUtils.encodeArray`: concatenate the element encodings in order;
the first throw aborts the whole call. -/
def encodeArray : List JValue → Except CodecErr (List Char)
  | [] => .ok []
  | v :: vs =>
    match encodeItem v with
    | .error e => .error e
    | .ok w =>
      match encodeArray vs with
      | .error e => .error e
      | .ok ws => .ok (w ++ ws)

/-- `JSONUtils.encodeObject`: same per-value encoding over the fields in
insertion order. -/
def encodeObject : List (List Char × JValue) → Except CodecErr (List Char)
  | [] => .ok []
  | (_, v) :: fs =>
    match encodeItem v with
    | .error e => .error e
    | .ok w =>
      match encodeObject fs with
      | .error e => .error e
      | .ok ws => .ok (w ++ ws)

/-- `JSONUtils.encodeJSON`: arrays via `encodeArray`, then
`typeof value === 'object'` via `encodeObject`.  JS `typeof null` is
`'object'`, and `for...in` over `null` performs no iterations, so `null`
yields the empty encoding instead of reaching the throw. -/
def encodeJSON : JValue → Except CodecErr (List Char)
  | .jarr xs => encodeArray xs
  | .jobj fs => encodeObject fs
  | .jnull => .ok []
  | _ => .error .unsupportedType

/-! ## RLP codec (`src/encoding/rlp.js`) -/

mutual
/-- A value accepted by `RLP.encode`: a number, a string, or an array. -/
inductive RValue where
  | rnum (n : Int)
  | rstr (s : List Char)
  | rlist (items : RValueList)
  deriving Repr

/-- A JS array of RLP-encodable values (spelled as its own list type so
that the encoder is structurally recursive). -/
inductive RValueList where
  | nil
  | cons (head : RValue) (tail : RValueList)
  deriving Repr
end

/-- JS `(m / 2).toString(16)` where `m` is a string length: the quotient
is an exact binary float; an integer renders as its minimal hex digits
and a half-integer `k + 0.5` renders as `hex(k) ++ ".8"` (e.g.
`(0.5).toString(16) = "0.8"`). -/
def jsHalfToHex (m : Nat) : List Char :=
  if m % 2 = 0 then natToHexL (m / 2)
  else natToHexL (m / 2) ++ ".8".data

mutual
/-- `RLP.encode` / `encodeNumber` / `encodeString` / `encodeList`.
`encodeNumber` computes `value.toString(16)` once; its two branches both
return `0x` plus those digits (`intToHex(value)` is again
`value.toString(16)`).  `encodeString`'s argument string is converted to
UTF-8 bytes as `Buffer.from(value, 'utf8')` does. -/
def rlpEncode : RValue → Except CodecErr (List Char)
  | .rnum n =>
    if n < 0 then .error .rangeErr
    else if n ≤ 0x7f then .ok ('0' :: 'x' :: natToHexL n.toNat)
    else .ok ('0' :: 'x' :: natToHexL n.toNat)
  | .rstr s =>
    let buffer := utf8ListBytes s
    match buffer with
    | [b] =>
      if b ≤ 0x7f then .ok ('0' :: 'x' :: bytesToHex [b])
      else .ok ('0' :: 'x' :: (natToHexL 1 ++ bytesToHex [b]))
    | _ =>
      .ok ('0' :: 'x' :: (natToHexL buffer.length ++ bytesToHex buffer))
  | .rlist items =>
    match rlpEncodeParts items with
    | .error e => .error e
    | .ok parts =>
      let joined := (parts.map (fun p => p.drop 2)).flatten
      .ok ('0' :: 'x' :: (jsHalfToHex joined.length ++ joined))

/-- The element-wise `value.map(item => this.encode(item).slice(2))` of
`encodeList`, with the first throw aborting the call (the `0x` stripping
is done by the caller). -/
def rlpEncodeParts : RValueList → Except CodecErr (List (List Char))
  | .nil => .ok []
  | .cons v vs =>
    match rlpEncode v with
    | .error e => .error e
    | .ok p =>
      match rlpEncodeParts vs with
      | .error e => .error e
      | .ok ps => .ok (p :: ps)
end

/-- A value returned by `RLP.decode`: the string branch result (the byte
sequence that `Buffer.from(hex, 'hex')` yields, prior to its UTF-8
rendering) or the list branch result (raw hex substrings). -/
inductive RDecoded where
  | rstr (bytes : List Nat)
  | rlist (items : List (List Char))
  deriving Repr, DecidableEq

/-- JS `parseInt(s, 16)` on a slice of at most two characters: `none` is
`NaN`; a valid first digit followed by an invalid second parses the first
digit alone. -/
def jsParseIntPair : List Char → Option Nat
  | [] => none
  | [c] => hexVal c
  | c1 :: c2 :: _ =>
    match hexVal c1 with
    | none => none
    | some v1 =>
      match hexVal c2 with
      | none => some v1
      | some v2 => some (16 * v1 + v2)

/-- The `while` loop of `RLP.decodeList`: read a length byte, push the
payload slice, advance by `2 + itemLength`.  A `NaN` length pushes the
empty slice and makes the index `NaN`, ending the loop.  The fuel is the
remaining character count, which bounds the iteration count. -/
def decodeListGo : Nat → List Char → List (List Char)
  | 0, _ => []
  | fuel + 1, cs =>
    if cs.isEmpty then []
    else
      match jsParseIntPair (cs.take 2) with
      | none => [[]]
      | some len => (cs.drop 2).take len :: decodeListGo fuel (cs.drop (2 + len))

/-- `RLP.decodeList`: reads (and discards — the variable is never used)
the first length field, then iterates. -/
def decodeListRlp (cs : List Char) : List (List Char) :=
  decodeListGo cs.length (cs.drop 2)

/-- `RLP.decode`: length guard, strip `0x`, then
`parseInt(hexString[0], 16)` — note the source reads the single first
character, not a digit pair — and branch on `0x7f` / `0xc0`. -/
def rlpDecode (s : List Char) : Except CodecErr RDecoded :=
  if s.length < 2 then .error .lengthErr
  else
    let rest := s.drop 2
    match rest.head? with
    | none => .error .unsupportedFormat
    | some c =>
      match hexVal c with
      | none => .error .unsupportedFormat
      | some d =>
        if d ≤ 0x7f then .ok (.rstr (hexPairsToBytes rest))
        else if d ≥ 0xc0 then .ok (.rlist (decodeListRlp rest))
        else .error .unsupportedFormat


/-! ## Helper lemmas -/

lemma hexVal_hexDigitChar {d : Nat} (h : d < 16) :
    hexVal (hexDigitChar d) = some d := by
  interval_cases d <;> decide

lemma isHexDigit_hexDigitChar {d : Nat} (h : d < 16) :
    isHexDigit (hexDigitChar d) = true := by
  simp [isHexDigit, hexVal_hexDigitChar h]

lemma natToHexCore_ne_nil (f n : Nat) : natToHexCore (f + 1) n ≠ [] := by
  unfold natToHexCore
  split <;> simp

lemma natToHexCore_all_hex (f n : Nat) :
    (natToHexCore f n).all isHexDigit = true := by
  induction f generalizing n with
  | zero => simp [natToHexCore]
  | succ f ih =>
    unfold natToHexCore
    split
    · next h => simp [isHexDigit_hexDigitChar h]
    · next h =>
      simp only [List.all_append, ih]
      simp [isHexDigit_hexDigitChar (Nat.mod_lt n (by norm_num))]

lemma hexListToNat_append_one (l : List Char) (c : Char) :
    hexListToNat (l ++ [c]) = 16 * hexListToNat l + (hexVal c).getD 0 := by
  simp [hexListToNat, List.foldl_append]

lemma hexListToNat_natToHexCore (f : Nat) :
    ∀ n, n < 16 ^ f → hexListToNat (natToHexCore f n) = n := by
  induction f with
  | zero =>
    intro n h
    simp only [pow_zero, Nat.lt_one_iff] at h
    subst h
    simp [natToHexCore, hexListToNat]
  | succ f ih =>
    intro n h
    unfold natToHexCore
    split
    · next h16 =>
      simp [hexListToNat, hexVal_hexDigitChar h16]
    · next h16 =>
      push_neg at h16
      have hdiv : n / 16 < 16 ^ f := by
        rw [Nat.div_lt_iff_lt_mul (by norm_num)]
        calc n < 16 ^ (f + 1) := h
          _ = 16 ^ f * 16 := by ring
      rw [hexListToNat_append_one, ih _ hdiv,
        hexVal_hexDigitChar (Nat.mod_lt n (by norm_num))]
      simp [Nat.div_add_mod]

lemma hexListToNat_natToHexL (n : Nat) : hexListToNat (natToHexL n) = n := by
  have h : n < 16 ^ (n + 1) :=
    lt_of_lt_of_le (Nat.lt_pow_self (by norm_num) n)
      (Nat.pow_le_pow_right (by norm_num) (Nat.le_succ n))
  exact hexListToNat_natToHexCore (n + 1) n h

lemma natToHexCore_length_le (f : Nat) :
    ∀ n k, 0 < k → n < 16 ^ k → (natToHexCore f n).length ≤ k := by
  induction f with
  | zero => intro n k _ _; simp [natToHexCore]
  | succ f ih =>
    intro n k hk h
    unfold natToHexCore
    split
    · next => simpa using hk
    · next h16 =>
      push_neg at h16
      have hk2 : 2 ≤ k := by
        rcases Nat.lt_or_ge k 2 with hlt | hge
        · have hk1 : k = 1 := by omega
          subst hk1
          simp only [pow_one] at h
          omega
        · exact hge
      have hdiv : n / 16 < 16 ^ (k - 1) := by
        rw [Nat.div_lt_iff_lt_mul (by norm_num)]
        calc n < 16 ^ k := h
          _ = 16 ^ (k - 1) * 16 := by
            rw [← pow_succ]
            congr 1
            omega
      have := ih (n / 16) (k - 1) (by omega) hdiv
      simp only [List.length_append, List.length_cons, List.length_nil]
      omega

lemma natToHexL_length_le {n k : Nat} (hk : 0 < k) (h : n < 16 ^ k) :
    (natToHexL n).length ≤ k :=
  natToHexCore_length_le (n + 1) n k hk h

lemma hexListToNat_replicate_zero (k : Nat) (l : List Char) :
    hexListToNat (List.replicate k '0' ++ l) = hexListToNat l := by
  induction k with
  | zero => simp
  | succ k ih =>
    rw [List.replicate_succ]
    simpa [hexListToNat] using ih

lemma padStart_length (s : List Char) (n : Nat) (c : Char) :
    (padStart s n c).length = max n s.length := by
  simp only [padStart, List.length_append, List.length_replicate]
  omega

lemma bytesToHex_length (bs : List Nat) :
    (bytesToHex bs).length = 2 * bs.length := by
  induction bs with
  | nil => simp [bytesToHex]
  | cons b bs ih =>
    simp only [bytesToHex, List.flatMap_cons] at *
    simp [ih]
    omega

lemma hexPairsToBytes_replicate_zero (k : Nat) (l : List Char) :
    hexPairsToBytes (List.replicate (2 * k) '0' ++ l) =
      List.replicate k 0 ++ hexPairsToBytes l := by
  induction k with
  | zero => simp
  | succ k ih =>
    have : 2 * (k + 1) = (2 * k) + 1 + 1 := by ring
    rw [this, List.replicate_succ, List.replicate_succ]
    simp only [List.cons_append]
    rw [show hexPairsToBytes ('0' :: '0' :: (List.replicate (2 * k) '0' ++ l)) =
        (16 * 0 + 0) :: hexPairsToBytes (List.replicate (2 * k) '0' ++ l) from by
      simp [hexPairsToBytes, hexVal]]
    rw [ih]
    simp [List.replicate_succ]

lemma hexPairsToBytes_cons2 {c1 c2 : Char} {v1 v2 : Nat} (rest : List Char)
    (h1 : hexVal c1 = some v1) (h2 : hexVal c2 = some v2) :
    hexPairsToBytes (c1 :: c2 :: rest) =
      (16 * v1 + v2) :: hexPairsToBytes rest := by
  simp [hexPairsToBytes, h1, h2]

lemma hexPairsToBytes_bytesToHex (bs : List Nat) (h : ∀ b ∈ bs, b < 256) :
    hexPairsToBytes (bytesToHex bs) = bs := by
  induction bs with
  | nil => simp [bytesToHex, hexPairsToBytes]
  | cons b bs ih =>
    have hb : b < 256 := h b (List.mem_cons_self b bs)
    have hdiv : b / 16 < 16 := Nat.div_lt_of_lt_mul (by omega)
    have hmod : b % 16 < 16 := Nat.mod_lt b (by norm_num)
    simp only [bytesToHex, List.flatMap_cons, List.cons_append,
      List.nil_append]
    rw [hexPairsToBytes_cons2 _ (hexVal_hexDigitChar hdiv)
      (hexVal_hexDigitChar hmod)]
    have hb' : 16 * (b / 16) + b % 16 = b := by
      have := Nat.div_add_mod b 16
      omega
    rw [hb']
    congr 1
    exact ih (fun x hx => h x (List.mem_cons_of_mem b hx))

lemma char_toNat_lt (c : Char) : c.toNat < 1114112 := by
  rcases c.valid with h | ⟨_, h⟩
  · exact Nat.lt_trans h (by norm_num)
  · exact h

lemma utf8Char_lt_256 (c : Char) : ∀ b ∈ utf8Char c, b < 256 := by
  intro b hb
  have hc := char_toNat_lt c
  unfold utf8Char at hb
  split_ifs at hb with h1 h2 h3
  · simp only [List.mem_singleton] at hb
    omega
  · have : c.toNat / 64 < 32 := Nat.div_lt_of_lt_mul (by omega)
    have : c.toNat % 64 < 64 := Nat.mod_lt _ (by norm_num)
    simp only [List.mem_cons, List.mem_singleton] at hb
    rcases hb with rfl | rfl | h
    · omega
    · omega
    · cases h
  · have : c.toNat / 4096 < 16 := Nat.div_lt_of_lt_mul (by omega)
    have : (c.toNat / 64) % 64 < 64 := Nat.mod_lt _ (by norm_num)
    have : c.toNat % 64 < 64 := Nat.mod_lt _ (by norm_num)
    simp only [List.mem_cons, List.mem_singleton] at hb
    rcases hb with rfl | rfl | rfl | h
    · omega
    · omega
    · omega
    · cases h
  · have : c.toNat / 262144 < 16 := Nat.div_lt_of_lt_mul (by omega)
    have : (c.toNat / 4096) % 64 < 64 := Nat.mod_lt _ (by norm_num)
    have : (c.toNat / 64) % 64 < 64 := Nat.mod_lt _ (by norm_num)
    have : c.toNat % 64 < 64 := Nat.mod_lt _ (by norm_num)
    simp only [List.mem_cons, List.mem_singleton] at hb
    rcases hb with rfl | rfl | rfl | rfl | h
    · omega
    · omega
    · omega
    · omega
    · cases h

lemma utf8ListBytes_lt_256 (s : List Char) : ∀ b ∈ utf8ListBytes s, b < 256 := by
  intro b hb
  simp only [utf8ListBytes, List.mem_flatMap] at hb
  obtain ⟨c, _, hc⟩ := hb
  exact utf8Char_lt_256 c b hc

lemma filter_replicate_zero_append (k : Nat) (bs : List Nat) (h : 0 ∉ bs) :
    (List.replicate k 0 ++ bs).filter (fun b => b != 0) = bs := by
  rw [List.filter_append]
  have h1 : (List.replicate k 0).filter (fun b : Nat => b != 0) = [] := by
    induction k with
    | zero => simp
    | succ k ih =>
      rw [List.replicate_succ, List.filter_cons]
      simp [ih]
  have h2 : bs.filter (fun b => b != 0) = bs := by
    rw [List.filter_eq_self]
    intro b hb
    simp only [bne_iff_ne, ne_eq]
    intro hb0
    exact h (hb0 ▸ hb)
  rw [h1, h2, List.nil_append]

/-! ## Claim theorems -/

/-- C1 (code bug evaluation): at the input `"0xc0"` — whose leading byte
is `0xc0 ≥ 0xc0`, so the claim (and the spec) require delegation to
`decodeList`, which would return the empty list — the decoder instead
returns the string-branch result, the raw byte `0xc0`: the source parses
only the single first character (`parseInt(hexString[0], 16)` is `12`),
so the `b ≤ 0x7f` branch fires. -/
theorem c1_rlp_decode_reads_single_digit :
    rlpDecode "0xc0".data = .ok (.rstr [192]) ∧
      decodeListRlp "c0".data = [] := by
  constructor
  · decide
  · decide

/-- C7: for every integer `0 ≤ n ≤ 127`, `RLP.encode(n)` succeeds and is
exactly `"0x"` followed by the minimal hex digits of `n` (digit string of
value `n`, at most two digits — no length field or extra bytes). -/
theorem c7_rlp_small_value_self_encoding (n : Int) (h0 : 0 ≤ n)
    (h1 : n ≤ 127) :
    rlpEncode (.rnum n) = .ok ('0' :: 'x' :: natToHexL n.toNat) ∧
      hexListToNat (natToHexL n.toNat) = n.toNat ∧
      (natToHexL n.toNat).length ≤ 2 := by
  refine ⟨?_, hexListToNat_natToHexL _, ?_⟩
  · simp only [rlpEncode]
    rw [if_neg (by omega), if_pos (by omega)]
  · exact natToHexL_length_le (by norm_num)
      (lt_of_lt_of_eq (show n.toNat < 256 by omega)
        (by norm_num : (256 : Nat) = 16 ^ 2))

/-- C7 witness: `RLP.encode(123) = "0x7b"`. -/
theorem c7_rlp_small_value_self_encoding_witness :
    rlpEncode (.rnum 123) = .ok "0x7b".data :=
  ((c7_rlp_small_value_self_encoding 123 (by decide) (by decide)).1).trans
    (by decide)

/-- C9: for every list whose concatenated element encodings (with their
`0x` stripped) have an odd number of hex characters, the byte count
`length / 2` is fractional and the rendered length field contains a `'.'`
character, so the successful output is not a well-formed `0x`-hex
string. -/
theorem c9_rlp_list_fractional_length (items : RValueList)
    (parts : List (List Char)) (r : List Char)
    (hp : rlpEncodeParts items = .ok parts)
    (hodd : ((parts.map (fun p => p.drop 2)).flatten).length % 2 = 1)
    (hr : rlpEncode (.rlist items) = .ok r) :
    '.' ∈ r := by
  unfold rlpEncode at hr
  rw [hp] at hr
  have hr' : ('0' :: 'x' ::
      (jsHalfToHex ((parts.map (fun p => p.drop 2)).flatten).length ++
        (parts.map (fun p => p.drop 2)).flatten)) = r := Except.ok.inj hr
  rw [← hr']
  have hdot : '.' ∈
      jsHalfToHex ((parts.map (fun p => p.drop 2)).flatten).length := by
    unfold jsHalfToHex
    rw [if_neg (by omega)]
    exact List.mem_append_right _ (List.mem_cons_self '.' ['8'])
  exact List.mem_cons_of_mem _ (List.mem_cons_of_mem _
    (List.mem_append_left _ hdot))

/-- C9 witness: `RLP.encode([5]) = "0x0.85"`, which contains `'.'`. -/
theorem c9_rlp_list_fractional_length_witness :
    rlpEncode (.rlist (.cons (.rnum 5) .nil)) = .ok "0x0.85".data ∧
      '.' ∈ "0x0.85".data :=
  ⟨by decide,
    c9_rlp_list_fractional_length (.cons (.rnum 5) .nil) ["0x5".data]
      "0x0.85".data (by decide) (by decide) (by decide)⟩

/-- C10: for every valid `0x`-prefixed hex string `v` shorter than 64
characters, `encodeParameter('bytes', v)` left-pads the whole string,
prefix included: the result is 64 characters, carries the literal `"0x"`
at offset `64 - v.length`, and is not a pure hex-digit word. -/
theorem c10_encode_bytes_pads_whole_string (v : List Char)
    (hhex : isHex v = true) (hlen : v.length < 64) :
    encodeParameter "bytes".data (.vstr v) =
      .ok (List.replicate (64 - v.length) '0' ++ v) ∧
      (List.replicate (64 - v.length) '0' ++ v).length = 64 ∧
      ((List.replicate (64 - v.length) '0' ++ v).drop
          (64 - v.length)).take 2 = "0x".data ∧
      (List.replicate (64 - v.length) '0' ++ v).all isHexDigit = false := by
  have hdrop : (List.replicate (64 - v.length) '0' ++ v).drop
      (64 - v.length) = v := by
    have h := List.drop_left (List.replicate (64 - v.length) '0') v
    rwa [List.length_replicate] at h
  obtain ⟨rest, hv⟩ : ∃ rest, v = '0' :: 'x' :: rest := by
    unfold isHex at hhex
    split at hhex
    · next rest => exact ⟨rest, rfl⟩
    · cases hhex
  refine ⟨?_, ?_, ?_, ?_⟩
  · have hd : encodeParameter "bytes".data (.vstr v) = encodeBytes v := rfl
    rw [hd]
    unfold encodeBytes
    rw [hhex]
    simp [padStart]
  · simp only [List.length_append, List.length_replicate]
    omega
  · rw [hdrop, hv]
    rfl
  · rw [hv]
    simp only [List.all_append, List.all_cons]
    rw [show isHexDigit 'x' = false from by decide]
    simp

/-- C10 witness: the claim instantiated at `v = "0x12"`. -/
theorem c10_encode_bytes_pads_whole_string_witness :
    encodeParameter "bytes".data (.vstr "0x12".data) =
      .ok (List.replicate (64 - "0x12".data.length) '0' ++ "0x12".data) ∧
      (List.replicate (64 - "0x12".data.length) '0' ++
        "0x12".data).length = 64 ∧
      ((List.replicate (64 - "0x12".data.length) '0' ++
          "0x12".data).drop (64 - "0x12".data.length)).take 2 = "0x".data ∧
      (List.replicate (64 - "0x12".data.length) '0' ++
        "0x12".data).all isHexDigit = false :=
  c10_encode_bytes_pads_whole_string "0x12".data (by decide) (by decide)

/-- C8 counterexample: the claim says `encodeJSON(null)` fails with the
unsupported-type error, but JS `typeof null === 'object'` routes `null`
to `encodeObject`, whose `for...in` performs no iterations, so the call
succeeds with the empty encoding. -/
theorem c8_encode_json_null_succeeds : encodeJSON .jnull = .ok [] := by
  decide

/-- C8 (amended): `encodeJSON` fails with the unsupported-type error on
every number, string and boolean; `null`, however, is treated as an
object and yields the empty encoding instead of failing. -/
theorem c8_encode_json_rejects_primitives :
    (∀ n : Int, encodeJSON (.jnum n) = .error .unsupportedType) ∧
      (∀ s : List Char, encodeJSON (.jstr s) = .error .unsupportedType) ∧
      (∀ b : Bool, encodeJSON (.jbool b) = .error .unsupportedType) ∧
      encodeJSON .jnull = .ok [] :=
  ⟨fun _ => rfl, fun _ => rfl, fun _ => rfl, rfl⟩

/-- C2 counterexample: `getType('0xab')` returns `'string'`, not the
`'bytes32'` the claim states, because the `typeof value === 'string'`
branch precedes the `isHex` test. -/
theorem c2_get_type_hex_string_is_string :
    getType (.jstr "0xab".data) = .ok "string".data := rfl

/-- C2 (amended): every string — hex-formatted or not — maps to
`'string'` (the `'bytes32'` branch is unreachable for strings); numbers
map to `'uint256'`, booleans to `'bool'`, arrays to `'bytes[]'`, and the
remaining shapes (`null`, plain objects) fail with the unsupported-type
error. -/
theorem c2_get_type_dispatch :
    (∀ s : List Char, getType (.jstr s) = .ok "string".data) ∧
      (∀ n : Int, getType (.jnum n) = .ok "uint256".data) ∧
      (∀ b : Bool, getType (.jbool b) = .ok "bool".data) ∧
      (∀ xs : List JValue, getType (.jarr xs) = .ok "bytes[]".data) ∧
      getType .jnull = .error .unsupportedType ∧
      (∀ fs : List (List Char × JValue),
        getType (.jobj fs) = .error .unsupportedType) :=
  ⟨fun _ => rfl, fun _ => rfl, fun _ => rfl, fun _ => rfl, rfl,
    fun _ => rfl⟩

/-- C2 witness: the amended dispatch evaluated at the hex-formatted
string `"0x12"`, which gets `'string'`, not `'bytes32'`. -/
theorem c2_get_type_dispatch_witness :
    getType (.jstr "0x12".data) = .ok "string".data :=
  c2_get_type_dispatch.1 "0x12".data

/-- C6 counterexample: the encoded address keeps the original mixed case
— the output contains the uppercase `'B'` of the input — whereas the
claim requires the lowercase 40-hex-digit form. -/
theorem c6_encode_address_keeps_case :
    encodeParameter "address".data
        (.vstr "0x32Be343B94f860124dC4fEe278FDCBD38C102D88".data) =
      .ok (List.replicate 24 '0' ++
        "32Be343B94f860124dC4fEe278FDCBD38C102D88".data) ∧
      'B' ∈ List.replicate 24 '0' ++
        "32Be343B94f860124dC4fEe278FDCBD38C102D88".data := by
  constructor
  · decide
  · decide

/-- C6 (amended): `encodeParameter('address',
'0x32Be343B94f860124dC4fEe278FDCBD38C102D88')` returns the address's 40
hex digits with their original casing preserved (not lowercased),
left-padded with 24 zero digits to a 64-character word. -/
theorem c6_encode_address_padded_original_case :
    encodeParameter "address".data
        (.vstr "0x32Be343B94f860124dC4fEe278FDCBD38C102D88".data) =
      .ok (List.replicate 24 '0' ++
        "32Be343B94f860124dC4fEe278FDCBD38C102D88".data) ∧
      (List.replicate 24 '0' ++
        "32Be343B94f860124dC4fEe278FDCBD38C102D88".data).length = 64 := by
  constructor
  · decide
  · decide

/-- C3 counterexample: the claim says a string of exactly 64 hex digits
(no `0x` prefix — the Bytes32 textual form) is accepted and returned
unchanged, but `isHex` requires a `0x` prefix, so 64 zero digits are
rejected with the format error. -/
theorem c3_encode_bytes32_rejects_unprefixed :
    encodeParameter "bytes32".data (.vstr (List.replicate 64 '0')) =
      .error .formatErr := by
  decide

/-- C3 (amended): `encodeParameter('bytes32', w)` succeeds and returns
`w` unchanged exactly when `w` has 64 characters **and** matches
`^0x[0-9a-fA-F]+$` (so `'0x'` plus 62 hex digits); any other length fails
with the length error (checked first), and a 64-character string that is
not prefixed hex — including every 64-hex-digit string without `0x` —
fails with the format error. -/
theorem c3_encode_bytes32_cases (w : List Char) :
    (w.length = 64 → isHex w = true →
      encodeParameter "bytes32".data (.vstr w) = .ok w) ∧
      (w.length ≠ 64 →
        encodeParameter "bytes32".data (.vstr w) = .error .lengthErr) ∧
      (w.length = 64 → isHex w = false →
        encodeParameter "bytes32".data (.vstr w) = .error .formatErr) := by
  have hd : encodeParameter "bytes32".data (.vstr w) = encodeBytes32 w := rfl
  refine ⟨?_, ?_, ?_⟩
  · intro hlen hhex
    rw [hd]
    unfold encodeBytes32
    rw [if_neg (by omega), hhex]
    simp
  · intro hlen
    rw [hd]
    unfold encodeBytes32
    rw [if_pos hlen]
  · intro hlen hhex
    rw [hd]
    unfold encodeBytes32
    rw [if_neg (by omega), hhex]
    simp

set_option maxRecDepth 4000 in
/-- C5 counterexample: `encodeParameter('uint256', 2^256)` succeeds —
there is no upper range check — and returns a 65-character output, so a
succeeding input outside the `'string'`/`'bytes'` exceptions violates the
64-character claim. -/
theorem c5_uint256_overflow_long_word :
    encodeParameter "uint256".data (.vint (2 ^ 256)) =
      .ok ('1' :: List.replicate 64 '0') ∧
      ('1' :: List.replicate 64 '0').length = 65 := by
  constructor
  · decide
  · decide

/-- C5 (amended): every successful `encodeParameter` output has exactly
64 characters, except that `'string'` and `'bytes'` values whose hex
form already exceeds 64 characters — and `'uint256'` values of 65 or
more hex digits (≥ 2^256), which carry no range check — are returned
longer than 64 characters, not rejected. -/
theorem c5_word_length_invariant (t : List Char) (v : AbiValue)
    (r : List Char) (h : encodeParameter t v = .ok r) :
    r.length = 64 ∨ (64 < r.length ∧
      (t = "uint256".data ∨ t = "string".data ∨ t = "bytes".data)) := by
  unfold encodeParameter at h
  split_ifs at h with h1 h2 h3 h4 h5 h6
  · -- uint256
    cases hj : jsToBigInt v with
    | none => rw [hj] at h; simp at h
    | some n =>
      rw [hj] at h
      have h' : (if n < 0 then (.error .rangeErr : Except CodecErr (List Char))
          else .ok (padStart (natToHexL n.toNat) 64 '0')) = .ok r := h
      split_ifs at h' with hneg
      have hr := Except.ok.inj h'
      rw [← hr, padStart_length]
      rcases le_or_lt (natToHexL n.toNat).length 64 with hle | hgt
      · left; omega
      · right
        exact ⟨by omega, Or.inl h1⟩
  · -- string
    cases v with
    | vstr s =>
      have h' : (.ok (encodeStringAbi (utf8ListBytes s)) :
          Except CodecErr (List Char)) = .ok r := h
      have hr := Except.ok.inj h'
      rw [← hr]
      unfold encodeStringAbi
      rw [padStart_length]
      rcases le_or_lt (bytesToHex (utf8ListBytes s)).length 64 with hle | hgt
      · left; omega
      · right
        exact ⟨by omega, Or.inr (Or.inl h2)⟩
    | vint n => exact absurd h (by simp)
    | vbool b => exact absurd h (by simp)
  · -- bool
    have hr := Except.ok.inj h
    rw [← hr]
    left
    cases jsTruthy v <;> decide
  · -- address
    cases v with
    | vstr s =>
      have h' : (if isHex s = false ∨ s.length ≠ 42 then
          (.error .invalidAddress : Except CodecErr (List Char))
          else .ok (padStart (s.drop 2) 64 '0')) = .ok r := h
      split_ifs at h' with ha
      push_neg at ha
      have hr := Except.ok.inj h'
      rw [← hr, padStart_length, List.length_drop, ha.2]
      left
      omega
    | vint n => exact absurd h (by simp)
    | vbool b => exact absurd h (by simp)
  · -- bytes32
    cases v with
    | vstr s =>
      have h' : (if s.length ≠ 64 then
          (.error .lengthErr : Except CodecErr (List Char))
          else if isHex s = false then .error .formatErr
          else .ok s) = .ok r := h
      split_ifs at h' with hl hx
      push_neg at hl
      left
      have hr := Except.ok.inj h'
      rw [← hr]
      exact hl
    | vint n => exact absurd h (by simp)
    | vbool b => exact absurd h (by simp)
  · -- bytes
    cases v with
    | vstr s =>
      have h' : (if isHex s = false then
          (.error .formatErr : Except CodecErr (List Char))
          else .ok (padStart s 64 '0')) = .ok r := h
      split_ifs at h' with hx
      have hr := Except.ok.inj h'
      rw [← hr, padStart_length]
      rcases le_or_lt s.length 64 with hle | hgt
      · left; omega
      · right
        exact ⟨by omega, Or.inr (Or.inr h6)⟩
    | vint n => exact absurd h (by simp)
    | vbool b => exact absurd h (by simp)

/-- C5 witness: the invariant instantiated at the succeeding call
`encodeParameter('bool', true)`, whose output is the trailing-one
64-character word. -/
theorem c5_word_length_invariant_witness :
    onesWord.length = 64 ∨ (64 < onesWord.length ∧
      ("bool".data = "uint256".data ∨ "bool".data = "string".data ∨
        "bool".data = "bytes".data)) :=
  c5_word_length_invariant "bool".data (.vbool true) onesWord (by decide)

lemma all_replicate_of_true {α : Type} (k : Nat) (c : α) (p : α → Bool)
    (h : p c = true) : (List.replicate k c).all p = true := by
  induction k with
  | zero => simp
  | succ k ih => simp [List.replicate_succ, h, ih]

/-- C4 counterexample: the one-byte string `"\0"` (U+0000) is a string of
at most 31 bytes, but its round trip decodes to the empty string: the
encoder pads with zeros and the decoder's `replace(/\0/g, '')` removes
every null character, including the one belonging to the value. -/
theorem c4_round_trip_fails_on_nul :
    (encodeParameter "string".data (.vstr [Char.ofNat 0])).bind
        (decodeParameter "string".data) = .ok (.dstr []) ∧
      utf8ListBytes [Char.ofNat 0] = [0] := by
  constructor
  · decide
  · decide

/-- C4 (amended): `decodeParameter(type, encodeParameter(type, value))`
recovers `value` for `uint256` values below 2^256, for strings of at
most 31 UTF-8 bytes **containing no null byte**, for booleans, for
addresses (42-character `0x`-prefixed hex), and for the `bytes32` values
the encoder accepts (64 characters including the `0x` prefix).  Strings
are identified with their UTF-8 byte sequences, as produced by
`Buffer.from(s, 'utf8')`. -/
theorem c4_round_trip_one_word :
    (∀ n : Nat, n < 2 ^ 256 →
      (encodeParameter "uint256".data (.vint n)).bind
        (decodeParameter "uint256".data) = .ok (.dint n)) ∧
      (∀ s : List Char, (utf8ListBytes s).length ≤ 31 →
        (0 : Nat) ∉ utf8ListBytes s →
        (encodeParameter "string".data (.vstr s)).bind
          (decodeParameter "string".data) = .ok (.dstr (utf8ListBytes s))) ∧
      (∀ b : Bool,
        (encodeParameter "bool".data (.vbool b)).bind
          (decodeParameter "bool".data) = .ok (.dbool b)) ∧
      (∀ a : List Char, isHex a = true → a.length = 42 →
        (encodeParameter "address".data (.vstr a)).bind
          (decodeParameter "address".data) = .ok (.dhex a)) ∧
      (∀ w : List Char, w.length = 64 → isHex w = true →
        (encodeParameter "bytes32".data (.vstr w)).bind
          (decodeParameter "bytes32".data) = .ok (.dhex w)) := by
  refine ⟨?_, ?_, ?_, ?_, ?_⟩
  · -- uint256
    intro n hn
    have he : encodeParameter "uint256".data (.vint n) =
        encodeUInt256 (n : Int) := rfl
    have he2 : encodeUInt256 (n : Int) =
        .ok (padStart (natToHexL n) 64 '0') := by
      unfold encodeUInt256
      rw [if_neg (by omega)]
      norm_num
    rw [he, he2]
    have hd : (Except.ok (padStart (natToHexL n) 64 '0')).bind
        (decodeParameter "uint256".data) =
        decodeUInt256 (padStart (natToHexL n) 64 '0') := rfl
    rw [hd]
    have hne : natToHexL n ≠ [] := natToHexCore_ne_nil n n
    have hcond : (!(padStart (natToHexL n) 64 '0').isEmpty &&
        (padStart (natToHexL n) 64 '0').all isHexDigit) = true := by
      unfold padStart
      rcases hx : natToHexL n with _ | ⟨c, cs⟩
      · exact absurd hx hne
      · simp only [Bool.and_eq_true, Bool.not_eq_true',
          List.isEmpty_eq_false, ne_eq, List.append_eq_nil, List.all_append]
        refine ⟨by simp, ?_, ?_⟩
        · exact all_replicate_of_true _ _ _ (by decide)
        · rw [← hx]
          exact natToHexCore_all_hex (n + 1) n
    unfold decodeUInt256
    rw [if_pos hcond]
    have hv : hexListToNat (padStart (natToHexL n) 64 '0') = n := by
      unfold padStart
      rw [hexListToNat_replicate_zero, hexListToNat_natToHexL]
    rw [hv]
  · -- string
    intro s hlen h0
    have he : encodeParameter "string".data (.vstr s) =
        .ok (encodeStringAbi (utf8ListBytes s)) := rfl
    rw [he]
    have hd : (Except.ok (encodeStringAbi (utf8ListBytes s))).bind
        (decodeParameter "string".data) =
        .ok (.dstr ((hexPairsToBytes
          (encodeStringAbi (utf8ListBytes s))).filter (fun b => b != 0))) :=
      rfl
    rw [hd]
    have hwlen : (bytesToHex (utf8ListBytes s)).length =
        2 * (utf8ListBytes s).length := bytesToHex_length _
    have hpad : encodeStringAbi (utf8ListBytes s) =
        List.replicate (2 * (32 - (utf8ListBytes s).length)) '0' ++
          bytesToHex (utf8ListBytes s) := by
      unfold encodeStringAbi padStart
      rw [hwlen]
      congr 1
      congr 1
      omega
    rw [hpad, hexPairsToBytes_replicate_zero,
      hexPairsToBytes_bytesToHex _ (utf8ListBytes_lt_256 s),
      filter_replicate_zero_append _ _ h0]
  · -- bool
    intro b
    cases b
    · decide
    · decide
  · -- address
    intro a hhex hlen
    obtain ⟨rest, hv⟩ : ∃ rest, a = '0' :: 'x' :: rest := by
      unfold isHex at hhex
      split at hhex
      · next rest => exact ⟨rest, rfl⟩
      · cases hhex
    subst hv
    have hrest : rest.length = 40 := by
      simp only [List.length_cons] at hlen
      omega
    have he : encodeParameter "address".data
        (.vstr ('0' :: 'x' :: rest)) = encodeAddress ('0' :: 'x' :: rest) :=
      rfl
    have he2 : encodeAddress ('0' :: 'x' :: rest) =
        .ok (List.replicate 24 '0' ++ rest) := by
      unfold encodeAddress
      rw [if_neg (by simp [hhex, hlen])]
      unfold padStart
      simp only [List.drop_succ_cons, List.drop_zero]
      congr 2
      simp [hrest]
    rw [he, he2]
    have hd : (Except.ok (List.replicate 24 '0' ++ rest)).bind
        (decodeParameter "address".data) =
        .ok (.dhex ('0' :: 'x' ::
          (List.replicate 24 '0' ++ rest).drop 24)) := rfl
    rw [hd]
    have hdrop : (List.replicate 24 '0' ++ rest).drop 24 = rest := by
      have h := List.drop_left (List.replicate 24 '0') rest
      rwa [List.length_replicate] at h
    rw [hdrop]
  · -- bytes32
    intro w hlen hhex
    have he : encodeParameter "bytes32".data (.vstr w) = encodeBytes32 w :=
      rfl
    have he2 : encodeBytes32 w = .ok w := by
      unfold encodeBytes32
      rw [if_neg (by omega), hhex]
      simp
    rw [he, he2]
    rfl

/-- C4 witness: one instance of each amended round-trip case —
`uint256` at 5, the string `"ab"`, `true`, the documented example
address, and a `bytes32` value the encoder accepts. -/
theorem c4_round_trip_one_word_witness :
    (encodeParameter "uint256".data (.vint (5 : Nat))).bind
        (decodeParameter "uint256".data) = .ok (.dint (5 : Nat)) ∧
      (encodeParameter "string".data (.vstr "ab".data)).bind
        (decodeParameter "string".data) =
        .ok (.dstr (utf8ListBytes "ab".data)) ∧
      (encodeParameter "bool".data (.vbool true)).bind
        (decodeParameter "bool".data) = .ok (.dbool true) ∧
      (encodeParameter "address".data
          (.vstr "0x32Be343B94f860124dC4fEe278FDCBD38C102D88".data)).bind
        (decodeParameter "address".data) =
        .ok (.dhex "0x32Be343B94f860124dC4fEe278FDCBD38C102D88".data) ∧
      (encodeParameter "bytes32".data
          (.vstr ('0' :: 'x' :: List.replicate 62 'c'))).bind
        (decodeParameter "bytes32".data) =
        .ok (.dhex ('0' :: 'x' :: List.replicate 62 'c')) :=
  ⟨c4_round_trip_one_word.1 5 (by norm_num),
    c4_round_trip_one_word.2.1 "ab".data (by decide) (by decide),
    c4_round_trip_one_word.2.2.1 true,
    c4_round_trip_one_word.2.2.2.1
      "0x32Be343B94f860124dC4fEe278FDCBD38C102D88".data (by decide)
      (by decide),
    c4_round_trip_one_word.2.2.2.2 ('0' :: 'x' :: List.replicate 62 'c')
      (by decide) (by decide)⟩

/-- C3 witness: the three amended cases at concrete inputs — `'0x'` plus
62 `'a'` digits succeeds unchanged, the empty string hits the length
error, 64 `'z'` characters hit the format error. -/
theorem c3_encode_bytes32_cases_witness :
    encodeParameter "bytes32".data
        (.vstr ('0' :: 'x' :: List.replicate 62 'a')) =
      .ok ('0' :: 'x' :: List.replicate 62 'a') ∧
      encodeParameter "bytes32".data (.vstr []) = .error .lengthErr ∧
      encodeParameter "bytes32".data (.vstr (List.replicate 64 'z')) =
        .error .formatErr :=
  ⟨(c3_encode_bytes32_cases _).1 (by decide) (by decide),
    (c3_encode_bytes32_cases _).2.1 (by decide),
    (c3_encode_bytes32_cases _).2.2 (by decide) (by decide)⟩
